import Mathlib

/-!
Verification development for the parquet-backed contracts search service
(`contracts/parquet_search.py`, `contracts/views.py`,
`contracts/openapi_serializers.py`, `data_processing/tasks.py`,
`data_processing/views.py`).

The SQL queries the service builds are given semantics over an explicit
list of rows: the union of the parquet partitions is a `List Row`, a
generated `WHERE` clause is a `Row → Bool` predicate (SQL three-valued
logic degenerates to two-valued here because every generated condition
evaluates to FALSE-like on NULL inputs and no generated condition is
negated), `ORDER BY` is a sort, `LIMIT`/`OFFSET` are `take`/`drop`.
-/

namespace Philgeps

/-! ## SQL string primitives -/

/-- The single-quote character of SQL string literals. -/
def quoteChar : Char := Char.ofNat 39

/-- The backslash character. -/
def backslashChar : Char := Char.ofNat 92

/-- Lower-case a character list, modelling SQL `LOWER` and Python
`str.lower()`. -/
def lowerChars (l : List Char) : List Char := l.map Char.toLower

/-- Lower-case a string. -/
def lowerStr (s : String) : String := (lowerChars s.data).asString

/-- Python `str.strip()`: drop leading and trailing whitespace. -/
def pythonStrip (l : List Char) : List Char :=
  (((l.dropWhile Char.isWhitespace).reverse.dropWhile Char.isWhitespace).reverse)

/-- Python `str.strip()` on strings. -/
def stripStr (s : String) : String := (pythonStrip s.data).asString

/-- Python `str.split('&&')`: split on non-overlapping occurrences of
the two-character token, scanning left to right. -/
def splitOnAmpAmp : List Char → List (List Char)
  | [] => [[]]
  | '&' :: '&' :: t => [] :: splitOnAmpAmp t
  | c :: t =>
    match splitOnAmpAmp t with
    | [] => [[c]]
    | p :: ps => (c :: p) :: ps

/-- `ParquetSearchService._escape_sql_like`: double every single quote,
then double every backslash. -/
def escapeSqlLike (l : List Char) : List Char :=
  l.flatMap fun c =>
    if c = quoteChar then [quoteChar, quoteChar]
    else if c = backslashChar then [backslashChar, backslashChar]
    else [c]

/-- Interpretation of a SQL single-quoted string literal body: a doubled
quote denotes one quote character; everything else is literal. -/
def sqlUnquote : List Char → List Char
  | c :: c' :: t =>
    if c = quoteChar ∧ c' = quoteChar then quoteChar :: sqlUnquote t
    else c :: sqlUnquote (c' :: t)
  | [c] => [c]
  | [] => []

/-- SQL `LIKE` pattern matching over characters: `%` matches any
(possibly empty) sequence, `_` matches exactly one character, every
other pattern character matches itself. -/
def likeMatch : List Char → List Char → Bool
  | [], s => s.isEmpty
  | c :: p, s =>
    if c = '%' then
      s.tails.any fun t => likeMatch p t
    else if c = '_' then
      (match s with
       | [] => false
       | _ :: t => likeMatch p t)
    else
      (match s with
       | [] => false
       | d :: t => c == d && likeMatch p t)

/-- Boolean prefix test on character lists. -/
def listIsPrefix : List Char → List Char → Bool
  | [], _ => true
  | _ :: _, [] => false
  | a :: p, b :: l => a == b && listIsPrefix p l

/-- Boolean contiguous-substring test on character lists. -/
def listContainsSub (hay needle : List Char) : Bool :=
  listIsPrefix needle hay ||
    (match hay with
     | [] => false
     | _ :: t => listContainsSub t needle)

/-- Substring test on strings. -/
def strContainsStr (s sub : String) : Bool := listContainsSub s.data sub.data

/-- The effective pattern characters a keyword contributes to a generated
`LIKE '%kw%'` condition: the keyword is escaped by `_escape_sql_like`,
spliced into a SQL string literal, and that literal is re-interpreted by
the SQL parser. -/
def effectiveKeywordChars (kw : String) : List Char :=
  sqlUnquote (escapeSqlLike kw.data)

/-- Semantics of a generated condition
`LOWER(col) LIKE LOWER('%kw%')` (with `kw` already escaped).  A NULL
column never matches; this also covers the NULL-safe variant
`col IS NOT NULL AND LOWER(col) LIKE ...` used for
`organization_name` and `area_of_delivery`, which has the same
two-valued semantics. -/
def colLike (col : Option String) (kw : String) : Bool :=
  match col with
  | none => false
  | some s =>
    likeMatch (lowerChars ('%' :: (effectiveKeywordChars kw ++ ['%']))) (lowerChars s.data)

/-- Spec-side definition (from the spec's words, for refinement
comparison): a case-insensitive contiguous-substring match of the
sub-term against the mapped column, with NULL columns never matching. -/
def specSubstringMatch (col : Option String) (kw : String) : Bool :=
  match col with
  | none => false
  | some s => listContainsSub (lowerChars s.data) (lowerChars kw.data)

/-- A keyword that denotes itself inside a generated `LIKE '%kw%'`
condition: no SQL wildcard (`%`, `_`, also after lower-casing) and no
character rewritten by `_escape_sql_like` (quote, backslash). -/
def plainKeyword (kw : String) : Bool :=
  kw.data.all fun c =>
    !(c == '%') && !(c == '_') && !(c == quoteChar) && !(c == backslashChar) &&
      !(c.toLower == '%') && !(c.toLower == '_')

/-! ## Chip parsing -/

/-- `ParquetSearchService._parse_and_keywords`: split on the literal
token `&&`, strip whitespace from each piece, drop empty pieces;
an empty or all-blank input yields no keywords. -/
def parseAndKeywords (keywordString : String) : List String :=
  if stripStr keywordString = "" then []
  else
    (((splitOnAmpAmp keywordString.data).map fun p => (pythonStrip p).asString).filter
      fun kw => kw ≠ "")

/-! ## Data model -/

/-- A calendar date as the SQL `date_part` functions see it. -/
structure AwardDate where
  year : Int
  month : Int
  day : Int
deriving DecidableEq, Repr

/-- SQL date comparison (lexicographic on year, month, day). -/
def dateLe (a b : AwardDate) : Bool :=
  decide (a.year < b.year) ||
    (a.year == b.year &&
      (decide (a.month < b.month) ||
        (a.month == b.month && decide (a.day ≤ b.day))))

/-- One row of the canonical parquet schema used by the chip-search
queries.  Nullable columns are `Option`s. -/
structure Row where
  contractNumber : String
  awardTitle : Option String
  noticeTitle : Option String
  awardDate : Option AwardDate
  awardeeName : Option String
  areaOfDelivery : Option String
  organizationName : Option String
  businessCategory : Option String
  contractAmount : Option ℚ
  searchText : Option String
deriving DecidableEq, Repr

/-- A time-range entry after the dynamic field checks in
`_build_chip_where_conditions` (entries whose type/field checks or
`int()`/date parses fail are `invalid` and are skipped). -/
inductive TimeRange where
  | yearly (year : Int)
  | quarterly (year quarter : Int)
  | custom (startDate endDate : AwardDate)
  | invalid
deriving DecidableEq, Repr

/-- A contract-amount range filter (`value_range` with at least one
bound present; an absent/empty dict contributes nothing). -/
structure ValueRange where
  min : Option ℚ
  max : Option ℚ
deriving DecidableEq, Repr

/-- A chip-search filter request (the arguments of
`search_contracts_with_chips` that shape the WHERE clause). -/
structure ChipFilters where
  contractors : List String := []
  areas : List String := []
  organizations : List String := []
  businessCategories : List String := []
  keywords : List String := []
  timeRanges : List TimeRange := []
  valueRange : Option ValueRange := none

/-! ## WHERE-condition compilation (`_build_chip_where_conditions`) -/

/-- The condition one chip contributes: the `&&`-separated sub-terms
ANDed as `LIKE '%kw%'` matches on the mapped column.  A chip with no
non-blank sub-terms contributes nothing (the `if category.strip()` and
`if and_keywords` guards). -/
def chipCond (colOf : Row → Option String) (chip : String) : Option (Row → Bool) :=
  match parseAndKeywords chip with
  | [] => none
  | kws => some fun r => kws.all fun kw => colLike (colOf r) kw

/-- The WHERE condition a whole dimension's chip list contributes: the
OR of the per-chip conditions, or nothing when no chip contributes. -/
def chipBlock (chips : List String) (colOf : Row → Option String) : Option (Row → Bool) :=
  match chips.filterMap (chipCond colOf) with
  | [] => none
  | conds => some fun r => conds.any fun c => c r

/-- Evaluation of one (valid) time-range entry on a row; `none` means
the entry contributes no condition (invalid entries and quarters
outside 1..4 fall through the if/elif chain). -/
def timeRangeCond : TimeRange → Option (Row → Bool)
  | .yearly y =>
    some fun r =>
      match r.awardDate with
      | some d => d.year == y
      | none => false
  | .quarterly y q =>
    if q = 1 then
      some fun r =>
        match r.awardDate with
        | some d => d.year == y && (decide (1 ≤ d.month) && decide (d.month ≤ 3))
        | none => false
    else if q = 2 then
      some fun r =>
        match r.awardDate with
        | some d => d.year == y && (decide (4 ≤ d.month) && decide (d.month ≤ 6))
        | none => false
    else if q = 3 then
      some fun r =>
        match r.awardDate with
        | some d => d.year == y && (decide (7 ≤ d.month) && decide (d.month ≤ 9))
        | none => false
    else if q = 4 then
      some fun r =>
        match r.awardDate with
        | some d => d.year == y && (decide (10 ≤ d.month) && decide (d.month ≤ 12))
        | none => false
    else none
  | .custom sd ed =>
    some fun r =>
      match r.awardDate with
      | some d => dateLe sd d && dateLe d ed
      | none => false
  | .invalid => none

/-- The time-range WHERE block: the OR of all valid entries'
conditions, or nothing when none are valid. -/
def timeBlock (trs : List TimeRange) : Option (Row → Bool) :=
  match trs.filterMap timeRangeCond with
  | [] => none
  | conds => some fun r => conds.any fun c => c r

/-- `CAST(contract_amount AS DOUBLE) >= m` (NULL amount never matches). -/
def amountGe (r : Row) (m : ℚ) : Bool :=
  match r.contractAmount with
  | some a => decide (m ≤ a)
  | none => false

/-- `CAST(contract_amount AS DOUBLE) <= m` (NULL amount never matches). -/
def amountLe (r : Row) (m : ℚ) : Bool :=
  match r.contractAmount with
  | some a => decide (a ≤ m)
  | none => false

/-- The value-range WHERE block: both-bounds, min-only and max-only
forms; a range with neither bound contributes nothing. -/
def valueBlock (vr : Option ValueRange) : Option (Row → Bool) :=
  match vr with
  | none => none
  | some v =>
    match v.min, v.max with
    | some a, some b => some fun r => amountGe r a && amountLe r b
    | some a, none => some fun r => amountGe r a
    | none, some b => some fun r => amountLe r b
    | none, none => none

/-- The list of WHERE conditions built by
`_build_chip_where_conditions`, in source order: business categories,
contractors, organizations, areas, keywords, time ranges, value range.
The final WHERE clause is their conjunction. -/
def buildChipConds (f : ChipFilters) : List (Row → Bool) :=
  [chipBlock f.businessCategories (fun r => r.businessCategory),
   chipBlock f.contractors (fun r => r.awardeeName),
   chipBlock f.organizations (fun r => r.organizationName),
   chipBlock f.areas (fun r => r.areaOfDelivery),
   chipBlock f.keywords (fun r => r.searchText),
   timeBlock f.timeRanges,
   valueBlock f.valueRange].reduceOption

/-- A row satisfies the generated WHERE clause. -/
def rowMatches (f : ChipFilters) (r : Row) : Bool :=
  (buildChipConds f).all fun c => c r

/-- The semantic contribution of one dimension's block to the WHERE
clause: an absent block constrains nothing. -/
def blockHolds (chips : List String) (colOf : Row → Option String) (r : Row) : Bool :=
  match chipBlock chips colOf with
  | none => true
  | some c => c r

/-- The condition of a single chip, taken as satisfied by a row. -/
def chipSat (colOf : Row → Option String) (chip : String) (r : Row) : Bool :=
  (parseAndKeywords chip).all fun kw => colLike (colOf r) kw

/-- The semantic contribution of the time-range block to the WHERE
clause: an absent block constrains nothing. -/
def timeHolds (trs : List TimeRange) (r : Row) : Bool :=
  match timeBlock trs with
  | none => true
  | some c => c r

/-- A single time-range entry's condition, taken as satisfied by a row
(entries contributing no condition count as unsatisfied). -/
def timeCondSat (tr : TimeRange) (r : Row) : Bool :=
  match timeRangeCond tr with
  | none => false
  | some c => c r

/-! ## Query executor (`search_contracts_with_chips`) -/

/-- Insert into a list sorted by `le` (helper for the `ORDER BY`
model). -/
def insSorted {α : Type} (le : α → α → Bool) (a : α) : List α → List α
  | [] => [a]
  | b :: t => if le a b then a :: b :: t else b :: insSorted le a t

/-- Sorting model for `ORDER BY`: an insertion sort by a caller-chosen
comparator (the claims below depend only on it being a permutation). -/
def sortRows {α : Type} (le : α → α → Bool) : List α → List α
  | [] => []
  | a :: t => insSorted le a (sortRows le t)

/-- The pagination sub-object of a search response. -/
structure Pagination where
  page : Nat
  pageSize : Nat
  totalCount : Nat
  totalPages : Nat
deriving DecidableEq, Repr

/-- The structured result of `search_contracts_with_chips`. -/
structure SearchResult where
  success : Bool
  data : List Row
  pagination : Pagination
deriving DecidableEq, Repr

/-- `ParquetSearchService.search_contracts_with_chips` over an explicit
row list (the union of the selected parquet files, to each of which the
same WHERE clause is applied): filter by the compiled WHERE conditions;
with `include_count` the CTE query cross-joins every surviving row with
`COUNT(*)` of the same filtered CTE, sorts, and applies
`LIMIT page_size OFFSET (page-1)*page_size`; the Python then takes the
total from the last column of the first returned row, or 0 when no row
came back. -/
def searchContractsWithChips (rows : List Row) (f : ChipFilters)
    (page pageSize : Nat) (le : Row → Row → Bool)
    (includeCount : Bool := true) : SearchResult :=
  let baseData := rows.filter (rowMatches f)
  let sorted := sortRows le baseData
  let offset := (page - 1) * pageSize
  let pageRows := (sorted.drop offset).take pageSize
  let totalCount :=
    if includeCount then (if pageRows.isEmpty then 0 else baseData.length) else 0
  let totalPages :=
    if includeCount && totalCount ≠ 0 then (totalCount + pageSize - 1) / pageSize else 0
  { success := true
    data := pageRows
    pagination :=
      { page := page, pageSize := pageSize, totalCount := totalCount, totalPages := totalPages } }

/-- The number of matching rows of a filter request. -/
def matchCount (rows : List Row) (f : ChipFilters) : Nat :=
  (rows.filter (rowMatches f)).length

/-- Exhaustive paging: the total number of rows obtained by requesting
pages `1, 2, …, numPages` with the same predicate and page size. -/
def pagedRowCount (rows : List Row) (f : ChipFilters) (pageSize : Nat)
    (le : Row → Row → Bool) (numPages : Nat) : Nat :=
  ((List.range numPages).map fun p =>
    (searchContractsWithChips rows f (p + 1) pageSize le true).data.length).sum

/-- A sample row used to evaluate the theorems on concrete inputs. -/
def sampleRow : Row :=
  { contractNumber := "CN-1"
    awardTitle := some "ROAD REPAIR"
    noticeTitle := none
    awardDate := some { year := 2021, month := 5, day := 10 }
    awardeeName := some "ACME BUILDERS"
    areaOfDelivery := some "NCR"
    organizationName := some "DPWH"
    businessCategory := some "CONSTRUCTION"
    contractAmount := some 100
    searchText := some "road repair acme builders" }

/-- The unconstrained filter request. -/
def noFilters : ChipFilters := {}

/-- A sort comparator (the counting claims hold for every comparator). -/
def anyLe : Row → Row → Bool := fun _ _ => true

/-! ## Sort-field validation and legacy query construction -/

/-- `ChipSearchRequestSerializer.ALLOWED_SORT_FIELDS`. -/
def ALLOWED_SORT_FIELDS : List String :=
  ["award_date", "contract_amount", "reference_id", "created_at",
   "organization_name", "awardee_name", "business_category", "area_of_delivery",
   "contract_no", "award_status", "award_amount", "award_title", "notice_title"]

/-- `ChipSearchRequestSerializer.validate_sortBy`: an empty value passes
through; otherwise the stripped value must be in the allow-list. -/
def validateSortBy (value : String) : Except String String :=
  if value = "" then .ok value
  else
    let v := stripStr value
    if v ∈ ALLOWED_SORT_FIELDS then .ok v
    else .error "Invalid sortBy"

/-- `search_contracts` / `search_contracts_with_chips` treat these sort
fields as numeric (sorted through `CAST(... AS DOUBLE)`). -/
def numericSortFields : List String :=
  ["contract_value", "total_contract_amount", "award_amount", "contract_amount"]

/-- The sort column interpolated into `ORDER BY`: `contract_value` is
rewritten to `contract_amount`; every other value passes through
verbatim. -/
def sortFieldFor (sortBy : String) : String :=
  if sortBy = "contract_value" then "contract_amount" else sortBy

/-- `search_contracts` lines 230-231 (and 713-714): the `ORDER BY`
direction keyword is `DESC` exactly when the lower-cased request value
is `desc`, and `ASC` for every other value, with no error path. -/
def sortDirectionSql (sortDirection : String) : String :=
  if lowerStr sortDirection = "desc" then "DESC" else "ASC"

/-- The serializer-side `sortDirection = ChoiceField(choices=['asc',
'desc'])` check used by the chip endpoints. -/
def sortDirectionChoiceValid (s : String) : Bool := s == "asc" || s == "desc"

/-- The `final_query` text built by `search_contracts` (the CTE form
with count), parameterised by the already-built base query text and
flattened to single spaces where the f-string has line breaks and
indentation.  The legacy `advanced_search` endpoint passes the
request's `sortBy` and `sortDirection` into this construction with no
validation. -/
def searchContractsFinalQuery (baseQuery sortBy sortDirection : String)
    (page pageSize : Nat) : String :=
  let dir := sortDirectionSql sortDirection
  let sf := sortFieldFor sortBy
  let offset := (page - 1) * pageSize
  if sortBy ∈ numericSortFields then
    "WITH base_data AS (" ++ baseQuery ++
      "), total_count AS (SELECT COUNT(*) as total FROM base_data) " ++
      "SELECT b.*, t.total FROM base_data b CROSS JOIN total_count t " ++
      "ORDER BY CAST(b." ++ sf ++ " AS DOUBLE) " ++ dir ++
      " LIMIT " ++ toString pageSize ++ " OFFSET " ++ toString offset
  else
    "WITH base_data AS (" ++ baseQuery ++
      "), total_count AS (SELECT COUNT(*) as total FROM base_data) " ++
      "SELECT b.*, t.total FROM base_data b CROSS JOIN total_count t " ++
      "ORDER BY b." ++ sf ++ " " ++ dir ++
      " LIMIT " ++ toString pageSize ++ " OFFSET " ++ toString offset

/-- `ContractViewSet.advanced_search`: the request's `sortBy` reaches
`search_contracts` (and hence the `ORDER BY` text) directly; the
endpoint performs no sort-field validation. -/
def advancedSearchQuery (baseQuery requestSortBy requestSortDirection : String)
    (page pageSize : Nat) : String :=
  searchContractsFinalQuery baseQuery requestSortBy requestSortDirection page pageSize

/-! ## Quarter arithmetic (`chip_aggregates_paginated` time ranges) -/

/-- SQL `EXTRACT(QUARTER FROM d)` in terms of the month. -/
def quarterOfMonth (m : Int) : Int := (m + 2) / 3

/-! ## Histogram engine (`get_value_distribution`) -/

/-- `contract_amount IS NOT NULL AND contract_amount > 0`. -/
def amountPositive (r : Row) : Bool :=
  match r.contractAmount with
  | some a => decide (0 < a)
  | none => false

/-- The amounts selected by the histogram base query: the rows matching
the chip filters restricted to positive non-null amounts. -/
def positiveAmounts (rows : List Row) (f : ChipFilters) : List ℚ :=
  (rows.filter fun r => rowMatches f r && amountPositive r).filterMap
    (fun r => r.contractAmount)

/-- SQL `MIN` over a non-empty column (0 for the empty list, in which
case the service returns before using it). -/
def listMinQ : List ℚ → ℚ
  | [] => 0
  | v :: vs => vs.foldl min v

/-- SQL `MAX` over a non-empty column. -/
def listMaxQ : List ℚ → ℚ
  | [] => 0
  | v :: vs => vs.foldl max v

/-- The bin assignment of the histogram query:
`CAST(LEAST(FLOOR((amount - min) / width) + 1, numBins) AS INTEGER)`. -/
def binOf (mn w : ℚ) (numBins : Int) (v : ℚ) : Int :=
  min (⌊(v - mn) / w⌋ + 1) numBins

/-- Spec-side bin assignment (from the spec's words):
`clamp(floor((value - min) / binWidth) + 1, 1, numBins)`. -/
def specBinClamp (mn w : ℚ) (numBins : Int) (v : ℚ) : Int :=
  max 1 (min (⌊(v - mn) / w⌋ + 1) numBins)

/-- One histogram bin of the response. -/
structure HistBin where
  binNumber : Int
  binStart : ℚ
  binEnd : ℚ
  count : Nat
  totalValue : ℚ
deriving DecidableEq, Repr

/-- The structured result of `get_value_distribution`. -/
structure HistResult where
  success : Bool
  minValue : ℚ
  maxValue : ℚ
  binWidth : ℚ
  totalContracts : Nat
  bins : List HistBin
deriving DecidableEq, Repr

/-- The `COUNT(*)` of one histogram bin group. -/
def histCount (vals : List ℚ) (mn w : ℚ) (numBins : Int) (b : Int) : Nat :=
  vals.countP fun x => binOf mn w numBins x = b

/-- One row of the histogram `GROUP BY` result. -/
def histBinFor (vals : List ℚ) (mn w : ℚ) (numBins : Int) (b : Int) : HistBin :=
  { binNumber := b
    binStart := mn + ((b : ℚ) - 1) * w
    binEnd := mn + (b : ℚ) * w
    count := histCount vals mn w numBins b
    totalValue := (vals.filter fun x => binOf mn w numBins x = b).foldl (· + ·) 0 }

/-- The bin width `(max - min) / num_bins` of a value list. -/
def histWidth (vals : List ℚ) (numBins : Nat) : ℚ :=
  (listMaxQ vals - listMinQ vals) / (numBins : ℚ)

/-- The histogram `GROUP BY` result: the bins numbered 1 to `numBins`
that received at least one row (grouping plus the
`WHERE bin_number >= 1 AND bin_number <= numBins` guard), ordered by
bin number. -/
def histBins (vals : List ℚ) (numBins : Nat) : List HistBin :=
  (List.range numBins).filterMap fun (i : Nat) =>
    if histCount vals (listMinQ vals) (histWidth vals numBins) (numBins : Int)
        ((i : Int) + 1) = 0 then none
    else some (histBinFor vals (listMinQ vals) (histWidth vals numBins) (numBins : Int)
      ((i : Int) + 1))

/-- `ParquetSearchService.get_value_distribution`: positive filtered
amounts only; when none exist (the stats query returns NULL min/max and
zero count) the early return produces the empty histogram with zero
min, max and width rather than dividing by zero; otherwise the
equal-width binning query produces `histBins`. -/
def getValueDistribution (rows : List Row) (f : ChipFilters) (numBins : Nat) : HistResult :=
  if positiveAmounts rows f = [] then
    { success := true, minValue := 0, maxValue := 0, binWidth := 0,
      totalContracts := 0, bins := [] }
  else
    { success := true
      minValue := listMinQ (positiveAmounts rows f)
      maxValue := listMaxQ (positiveAmounts rows f)
      binWidth := histWidth (positiveAmounts rows f) numBins
      totalContracts := (positiveAmounts rows f).length
      bins := histBins (positiveAmounts rows f) numBins }

/-! ## Streaming CSV export generators (`chip_export`,
`chip_export_aggregated`) -/

/-- An `except` clause enclosing a yield point, as far as delivery of a
`GeneratorExit` is concerned: whether the clause catches
`GeneratorExit`, and what its body then does. -/
structure ExceptClause where
  catchesGeneratorExit : Bool
  bodyReturns : Bool
deriving DecidableEq, Repr

/-- `except GeneratorExit: return` (both generators). -/
def exceptGenExitReturn : ExceptClause :=
  { catchesGeneratorExit := true, bodyReturns := true }

/-- `except Exception: … raise` in `chip_export.generate`;
`GeneratorExit` derives from `BaseException`, not `Exception`, so this
clause does not catch it. -/
def exceptExceptionReraise : ExceptClause :=
  { catchesGeneratorExit := false, bodyReturns := false }

/-- What closing the generator at a suspended yield point produces. -/
inductive CloseOutcome where
  | cleanReturn
  | genExitPropagates
  | raisesOther
deriving DecidableEq, Repr

/-- Delivery of `GeneratorExit` at a yield point through its enclosing
`except` clauses (innermost first): the first clause catching it either
returns cleanly or re-raises; with no catching clause the exception
propagates out of the generator. -/
def deliverGeneratorExit : List ExceptClause → CloseOutcome
  | [] => .genExitPropagates
  | h :: t =>
    if h.catchesGeneratorExit then
      (if h.bodyReturns then .cleanReturn else .genExitPropagates)
    else deliverGeneratorExit t

/-- Python generator-close semantics: `close()` raises only if the
generator raises a different exception (or yields again); both a clean
return and a propagating `GeneratorExit` count as clean termination. -/
def closeRaisesError : CloseOutcome → Bool
  | .cleanReturn => false
  | .genExitPropagates => false
  | .raisesOther => true

/-- The yield points of `chip_export.generate` with their enclosing
`except` clauses: the header-chunk yield sits before the `try`; the
in-loop chunk yield and the final-buffer chunk yield sit inside
`try … except GeneratorExit: return; except Exception: raise`. -/
def chipExportYieldPoints : List (List ExceptClause) :=
  [[],
   [exceptGenExitReturn, exceptExceptionReraise],
   [exceptGenExitReturn, exceptExceptionReraise]]

/-- The yield points of `chip_export_aggregated.generate`: the header
yield before the `try`, and the per-row chunk yield inside
`try … except GeneratorExit: return`. -/
def chipExportAggregatedYieldPoints : List (List ExceptClause) :=
  [[],
   [exceptGenExitReturn]]

/-! ## Response cache in front of search (`chip_search`,
`process_chip_search_task`, `trigger_search`, `get_cached_result`) -/

/-- A value stored under a search cache key: either the raw structured
result dict of the search service (keys `success`/`data`/`pagination`,
and `error` on failure — no `status` key), or the
`{'status': 'error', 'message': …}` dict written by a task's `except`
branch. -/
inductive CacheEntry where
  | serviceResult (r : SearchResult)
  | statusError (message : String)
deriving DecidableEq, Repr

/-- `ContractViewSet.chip_search` (views.py 221-237): the response is
written to the cache only in the `result['success']` branch. -/
def chipSearchViewCacheWrite (r : SearchResult) : Option SearchResult :=
  if r.success then some r else none

/-- `process_chip_search_task` (tasks.py 432-508): the structured
service result is cached unconditionally (`cache.set(cache_key,
result, 1800)`), whatever its `success` flag; only an exception raised
in the task body takes the `except` path that caches a
`{'status': 'error'}` dict. -/
def processChipSearchTaskCacheWrite : Except String SearchResult → CacheEntry
  | .ok r => .serviceResult r
  | .error msg => .statusError msg

/-- `result.get('status') == 'error'`: true only for the `except`-path
dict; a service result dict has no `status` key. -/
def cacheEntryStatusIsError : CacheEntry → Bool
  | .statusError _ => true
  | .serviceResult _ => false

/-- The classification `get_cached_result` returns for a cache lookup. -/
inductive PollStatus where
  | notReady
  | errorStatus
  | successStatus
deriving DecidableEq, Repr

/-- `get_cached_result` (data_processing/views.py): a missing entry is
`not_ready`; an entry whose `status` field is `'error'` is served as an
error; every other entry is served as `{'status': 'success', 'data': …}`. -/
def getCachedResult : Option CacheEntry → PollStatus
  | none => .notReady
  | some e => if cacheEntryStatusIsError e then .errorStatus else .successStatus

/-- `trigger_search` (data_processing/views.py 552-581): an existing
cache entry whose `status` is not `'error'` is returned immediately as
`{'status': 'cached', …}` instead of queueing a task. -/
def triggerSearchServesFromCache (e : Option CacheEntry) : Bool :=
  match e with
  | none => false
  | some e => !(cacheEntryStatusIsError e)

/-- A failed structured result of the search service (what
`search_contracts_with_chips` returns when the DuckDB execution raises:
`{'success': False, 'error': …, 'data': [], 'pagination': zeros}`). -/
def failedSearchResult : SearchResult :=
  { success := false
    data := []
    pagination := { page := 1, pageSize := 20, totalCount := 0, totalPages := 0 } }

/-! ## Bounded retries (`_call_service_with_retries`,
`process_chip_search_task`) -/

/-- `ContractViewSet._call_service_with_retries`: call the service (the
outcome of the call at a given attempt index is `f attempt`); on an
exception increment `attempt` and re-raise once `attempt > retries`,
otherwise sleep and loop. -/
def callServiceWithRetries {R : Type} (f : Nat → Except String R)
    (retries : Nat) (attempt : Nat) : Except String R :=
  match f attempt with
  | .ok r => .ok r
  | .error e =>
    if retries ≤ attempt then .error e
    else callServiceWithRetries f retries (attempt + 1)
termination_by retries - attempt

/-- The number of service invocations `_call_service_with_retries`
performs. -/
def callServiceAttemptCount {R : Type} (f : Nat → Except String R)
    (retries : Nat) (attempt : Nat) : Nat :=
  match f attempt with
  | .ok _ => 1
  | .error _ =>
    if retries ≤ attempt then 1
    else 1 + callServiceAttemptCount f retries (attempt + 1)
termination_by retries - attempt

/-- Terminal states of a background task. -/
inductive TaskState where
  | SUCCESS
  | FAILURE
deriving DecidableEq, Repr

/-- Modelled from the spec: the Celery retry scheduler driving
`process_chip_search_task` (`@shared_task(bind=True, max_retries=2)`
with `raise self.retry(exc=exc, countdown=30)` on failure) is external
to the repository; per the spec's task-orchestrator section, a failed
execution within the retry budget transitions to RETRY and re-executes
after a backoff, and once the budget is exhausted the task terminates
in FAILURE.  The pair returned is the terminal state and the final
retry count. -/
def celeryRunFrom {R : Type} (body : Nat → Except String R)
    (maxRetries : Nat) (retryCount : Nat) : TaskState × Nat :=
  match body retryCount with
  | .ok _ => (.SUCCESS, retryCount)
  | .error _ =>
    if maxRetries ≤ retryCount then (.FAILURE, retryCount)
    else celeryRunFrom body maxRetries (retryCount + 1)
termination_by maxRetries - retryCount

/-- `process_chip_search_task`'s declared retry budget. -/
def processChipSearchTaskMaxRetries : Nat := 2

theorem length_insSorted {α : Type} (le : α → α → Bool) (a : α) (l : List α) :
    (insSorted le a l).length = l.length + 1 := by
  induction l with
  | nil => rfl
  | cons b t ih =>
    simp only [insSorted]
    by_cases h : le a b = true
    · simp [h]
    · simp [h, ih]

theorem length_sortRows {α : Type} (le : α → α → Bool) (l : List α) :
    (sortRows le l).length = l.length := by
  induction l with
  | nil => rfl
  | cons a t ih => simp [sortRows, length_insSorted, ih]

theorem searchData_length (rows : List Row) (f : ChipFilters)
    (page pageSize : Nat) (le : Row → Row → Bool) (c : Bool) :
    (searchContractsWithChips rows f page pageSize le c).data.length
      = min pageSize (matchCount rows f - (page - 1) * pageSize) := by
  simp [searchContractsWithChips, matchCount, length_sortRows]

theorem sum_min_page_lengths (L s : Nat) :
    ∀ n, ((List.range n).map fun p => min s (L - p * s)).sum = min (n * s) L := by
  intro n
  induction n with
  | zero => simp
  | succ k ih =>
    rw [List.range_succ, List.map_append, List.sum_append, ih]
    simp only [List.map_cons, List.map_nil, List.sum_cons, List.sum_nil]
    rw [Nat.succ_mul]
    omega

theorem pagedRowCount_eq_min (rows : List Row) (f : ChipFilters)
    (pageSize : Nat) (le : Row → Row → Bool) (n : Nat) :
    pagedRowCount rows f pageSize le n = min (n * pageSize) (matchCount rows f) := by
  unfold pagedRowCount
  have h : ∀ p : Nat,
      (searchContractsWithChips rows f (p + 1) pageSize le true).data.length
        = min pageSize (matchCount rows f - p * pageSize) := by
    intro p
    rw [searchData_length]
    simp
  simp only [h]
  exact sum_min_page_lengths (matchCount rows f) pageSize n

/-- C2 (corrected): for every filter request and valid page window that
starts before the end of the matching rows (or with no matching rows at
all), the `totalCount` of the chip search equals the number of rows
obtained by exhaustively paging the same predicate, and it equals the
length of the single filtered row list from which the returned page is
also taken (one filtered pass).  The restriction on the window is
forced by `c2_counterexample`: a window entirely past the last matching
row reports `totalCount = 0`. -/
theorem chipSearch_totalCount_exhaustive (rows : List Row) (f : ChipFilters)
    (page pageSize n : Nat) (le : Row → Row → Bool)
    (hs : 1 ≤ pageSize)
    (hwin : (page - 1) * pageSize < matchCount rows f ∨ matchCount rows f = 0)
    (hn : matchCount rows f ≤ n * pageSize) :
    (searchContractsWithChips rows f page pageSize le true).pagination.totalCount
      = matchCount rows f ∧
    (searchContractsWithChips rows f page pageSize le true).pagination.totalCount
      = pagedRowCount rows f pageSize le n := by
  have hcount :
      (searchContractsWithChips rows f page pageSize le true).pagination.totalCount
        = if (searchContractsWithChips rows f page pageSize le true).data.isEmpty then 0
          else matchCount rows f := rfl
  have htc :
      (searchContractsWithChips rows f page pageSize le true).pagination.totalCount
        = matchCount rows f := by
    rcases hwin with hlt | hzero
    · have hne : (searchContractsWithChips rows f page pageSize le true).data.length ≠ 0 := by
        rw [searchData_length]; omega
      have hemp : (searchContractsWithChips rows f page pageSize le true).data.isEmpty = false := by
        cases h : (searchContractsWithChips rows f page pageSize le true).data.isEmpty
        · rfl
        · exact absurd (by simp [List.isEmpty_iff.mp h]) hne
      rw [hcount, hemp]
      simp
    · rw [hcount, hzero]
      simp
  refine ⟨htc, ?_⟩
  rw [htc, pagedRowCount_eq_min]
  omega

/-- C2 counterexample: with one matching row, page 2 of size 1 is a
valid page spec, yet the search reports `totalCount = 0` while
exhaustively paging the same predicate yields 1 row — refuting the
claim as stated for arbitrary valid page windows. -/
theorem c2_counterexample :
    (searchContractsWithChips [sampleRow] noFilters 2 1 anyLe true).pagination.totalCount = 0 ∧
    pagedRowCount [sampleRow] noFilters 1 anyLe 1 = 1 := by
  constructor <;> rfl

/-- C2 witness: the amended theorem applied to the one-row table at
page 1, size 1, exhausting with one page. -/
theorem c2_witness :
    (searchContractsWithChips [sampleRow] noFilters 1 1 anyLe true).pagination.totalCount
      = matchCount [sampleRow] noFilters ∧
    (searchContractsWithChips [sampleRow] noFilters 1 1 anyLe true).pagination.totalCount
      = pagedRowCount [sampleRow] noFilters 1 anyLe 1 :=
  chipSearch_totalCount_exhaustive [sampleRow] noFilters 1 1 1 anyLe
    (by decide) (by decide) (by decide)

/-- C3 (confirmed): with `include_count` enabled, a chip search whose
page window lies entirely at or past the number of matching rows
returns success with an empty data list and `total_count = 0` (the
total is read off the last column of the first returned row and no row
is returned), even when the predicate matches a non-zero number of
rows. -/
theorem chipSearch_pastEnd_zeroTotal (rows : List Row) (f : ChipFilters)
    (page pageSize : Nat) (le : Row → Row → Bool)
    (hoff : matchCount rows f ≤ (page - 1) * pageSize) :
    (searchContractsWithChips rows f page pageSize le true).success = true ∧
    (searchContractsWithChips rows f page pageSize le true).data = [] ∧
    (searchContractsWithChips rows f page pageSize le true).pagination.totalCount = 0 := by
  have hdrop : (sortRows le (rows.filter (rowMatches f))).drop ((page - 1) * pageSize) = [] := by
    apply List.drop_eq_nil_of_le
    rw [length_sortRows]
    exact hoff
  refine ⟨rfl, ?_, ?_⟩ <;> simp [searchContractsWithChips, hdrop]

/-- C3 witness: the one-row table matches 1 > 0 rows, yet page 2 of
size 1 returns success, no data, and `total_count = 0`. -/
theorem c3_witness :
    matchCount [sampleRow] noFilters = 1 ∧
    ((searchContractsWithChips [sampleRow] noFilters 2 1 anyLe true).success = true ∧
     (searchContractsWithChips [sampleRow] noFilters 2 1 anyLe true).data = [] ∧
     (searchContractsWithChips [sampleRow] noFilters 2 1 anyLe true).pagination.totalCount = 0) :=
  ⟨by rfl, chipSearch_pastEnd_zeroTotal [sampleRow] noFilters 2 1 anyLe (by decide)⟩

theorem escapeSqlLike_id (l : List Char)
    (h : ∀ c ∈ l, c ≠ quoteChar ∧ c ≠ backslashChar) : escapeSqlLike l = l := by
  induction l with
  | nil => rfl
  | cons c t ih =>
    have hc := h c (by simp)
    simp only [escapeSqlLike, List.flatMap_cons, if_neg hc.1, if_neg hc.2]
    have : escapeSqlLike t = t := ih fun c hc => h c (by simp [hc])
    simp only [escapeSqlLike] at this
    simp [this]

theorem sqlUnquote_id (l : List Char) (h : ∀ c ∈ l, c ≠ quoteChar) : sqlUnquote l = l := by
  induction l with
  | nil => rfl
  | cons c t ih =>
    cases t with
    | nil => rfl
    | cons c' t' =>
      have hc : ¬(c = quoteChar ∧ c' = quoteChar) := by
        intro hcc
        exact (h c (by simp)) hcc.1
      rw [sqlUnquote, if_neg hc, ih fun x hx => h x (by simp [hx])]

theorem effectiveKeywordChars_id (kw : String) (h : plainKeyword kw = true) :
    effectiveKeywordChars kw = kw.data := by
  unfold plainKeyword at h
  rw [List.all_eq_true] at h
  have hq : ∀ c ∈ kw.data, c ≠ quoteChar ∧ c ≠ backslashChar := by
    intro c hc
    have := h c hc
    simp only [Bool.and_eq_true, Bool.not_eq_eq_eq_not, Bool.not_true, beq_eq_false_iff_ne,
      ne_eq] at this
    exact ⟨this.1.1.1.2, this.1.1.2⟩
  unfold effectiveKeywordChars
  rw [escapeSqlLike_id kw.data hq]
  exact sqlUnquote_id kw.data fun c hc => (hq c hc).1

theorem likeMatch_nil (s : List Char) : likeMatch [] s = s.isEmpty := rfl

theorem likeMatch_cons (c : Char) (p s : List Char) :
    likeMatch (c :: p) s =
      (if c = '%' then s.tails.any fun t => likeMatch p t
       else if c = '_' then
         (match s with
          | [] => false
          | _ :: t => likeMatch p t)
       else
         (match s with
          | [] => false
          | d :: t => c == d && likeMatch p t)) := rfl

theorem likeMatch_pct_only (s : List Char) : likeMatch ['%'] s = true := by
  rw [likeMatch_cons, if_pos rfl]
  rw [List.any_eq_true]
  exact ⟨[], (List.mem_tails [] s).mpr List.nil_suffix, rfl⟩

theorem likeMatch_append_pct (kw : List Char) (hk : ∀ c ∈ kw, c ≠ '%' ∧ c ≠ '_') :
    ∀ s : List Char, likeMatch (kw ++ ['%']) s = listIsPrefix kw s := by
  induction kw with
  | nil =>
    intro s
    simp [likeMatch_pct_only, listIsPrefix]
  | cons c kw ih =>
    intro s
    have hc := hk c (by simp)
    rw [List.cons_append, likeMatch_cons, if_neg hc.1, if_neg hc.2]
    cases s with
    | nil => rfl
    | cons d t =>
      rw [listIsPrefix]
      show (c == d && likeMatch (kw ++ ['%']) t) = (c == d && listIsPrefix kw t)
      rw [ih (fun x hx => hk x (by simp [hx])) t]

theorem listContainsSub_eq_any_tails (kw : List Char) :
    ∀ s : List Char, listContainsSub s kw = s.tails.any fun t => listIsPrefix kw t := by
  intro s
  induction s with
  | nil => simp [listContainsSub]
  | cons d t ih =>
    rw [listContainsSub, List.tails_cons, List.any_cons, ih]

theorem likeMatch_pct_wrap (kw : List Char) (hk : ∀ c ∈ kw, c ≠ '%' ∧ c ≠ '_')
    (s : List Char) : likeMatch ('%' :: (kw ++ ['%'])) s = listContainsSub s kw := by
  rw [likeMatch_cons, if_pos rfl, listContainsSub_eq_any_tails]
  have hfun : ∀ t : List Char, likeMatch (kw ++ ['%']) t = listIsPrefix kw t :=
    likeMatch_append_pct kw hk
  rw [show (fun t => likeMatch (kw ++ ['%']) t) = fun t => listIsPrefix kw t from funext hfun]

theorem colLike_eq_specSubstring (col : Option String) (kw : String)
    (h : plainKeyword kw = true) : colLike col kw = specSubstringMatch col kw := by
  cases col with
  | none => rfl
  | some s =>
    simp only [colLike, specSubstringMatch]
    rw [effectiveKeywordChars_id kw h]
    unfold plainKeyword at h
    rw [List.all_eq_true] at h
    have hplain : ∀ c ∈ lowerChars kw.data, c ≠ '%' ∧ c ≠ '_' := by
      intro c hc
      rcases List.mem_map.mp hc with ⟨c0, hc0, rfl⟩
      have := h c0 hc0
      simp only [Bool.and_eq_true, Bool.not_eq_eq_eq_not, Bool.not_true, beq_eq_false_iff_ne,
        ne_eq] at this
      exact ⟨this.1.2, this.2⟩
    have hmap : lowerChars ('%' :: (kw.data ++ ['%'])) = '%' :: (lowerChars kw.data ++ ['%']) := by
      simp [lowerChars]
    rw [hmap, likeMatch_pct_wrap (lowerChars kw.data) hplain (lowerChars s.data)]

theorem chipCond_of_empty (colOf : Row → Option String) (c : String)
    (h : parseAndKeywords c = []) : chipCond colOf c = none := by
  simp [chipCond, h]

theorem chipCond_of_ne (colOf : Row → Option String) (c : String)
    (h : parseAndKeywords c ≠ []) : chipCond colOf c = some (chipSat colOf c) := by
  unfold chipCond chipSat
  cases hp : parseAndKeywords c with
  | nil => exact absurd hp h
  | cons k ks => simp [hp]

theorem chipBlock_nil (colOf : Row → Option String) : chipBlock [] colOf = none := rfl

theorem chipBlock_all_blank (chips : List String) (colOf : Row → Option String)
    (h : ∀ c ∈ chips, parseAndKeywords c = []) : chipBlock chips colOf = none := by
  have hfm : chips.filterMap (chipCond colOf) = [] := by
    rw [List.filterMap_eq_nil_iff]
    intro c hc
    exact chipCond_of_empty colOf c (h c hc)
  simp [chipBlock, hfm]

/-- C4 (confirmed): (1) the chip `"roadworks && bridge"` compiles to
the conjunction of two case-insensitive substring matches on the mapped
column, sub-terms trimmed and empty sub-terms dropped; (2) two chips
with non-blank content in one dimension compile to the disjunction of
their per-chip conditions; (3) a chip list in which every chip parses
to no sub-terms (empty or all blank) contributes no WHERE condition at
all; (4) consequently the filtered result set with such a chip list
equals the result set of the query without that dimension constrained. -/
theorem chip_filter_compilation :
    (∀ r : Row,
        blockHolds ["roadworks && bridge"] (fun r => r.businessCategory) r
          = (specSubstringMatch r.businessCategory "roadworks" &&
              specSubstringMatch r.businessCategory "bridge")) ∧
    (∀ (colOf : Row → Option String) (a b : String) (r : Row),
        parseAndKeywords a ≠ [] → parseAndKeywords b ≠ [] →
        blockHolds [a, b] colOf r = (chipSat colOf a r || chipSat colOf b r)) ∧
    (∀ (chips : List String) (colOf : Row → Option String),
        (∀ c ∈ chips, parseAndKeywords c = []) → chipBlock chips colOf = none) ∧
    (∀ (rows : List Row) (f : ChipFilters) (chips : List String),
        (∀ c ∈ chips, parseAndKeywords c = []) →
        rows.filter (rowMatches { f with businessCategories := chips })
          = rows.filter (rowMatches { f with businessCategories := [] })) := by
  have hpr : parseAndKeywords "roadworks && bridge" = ["roadworks", "bridge"] := by decide
  refine ⟨?_, ?_, ?_, ?_⟩
  · intro r
    have hcc : chipCond (fun r : Row => r.businessCategory) "roadworks && bridge"
        = some (chipSat (fun r : Row => r.businessCategory) "roadworks && bridge") :=
      chipCond_of_ne _ _ (by rw [hpr]; simp)
    unfold blockHolds chipBlock
    rw [List.filterMap_cons, hcc]
    simp only [List.filterMap_nil, List.any_cons, List.any_nil, Bool.or_false]
    unfold chipSat
    rw [hpr]
    simp only [List.all_cons, List.all_nil, Bool.and_true]
    rw [colLike_eq_specSubstring r.businessCategory "roadworks" (by decide),
      colLike_eq_specSubstring r.businessCategory "bridge" (by decide)]
  · intro colOf a b r ha hb
    unfold blockHolds chipBlock
    rw [List.filterMap_cons, List.filterMap_cons, List.filterMap_nil,
      chipCond_of_ne colOf a ha, chipCond_of_ne colOf b hb]
    simp
  · exact chipBlock_all_blank
  · intro rows f chips h
    have h1 : chipBlock chips (fun r : Row => r.businessCategory) = none :=
      chipBlock_all_blank chips _ h
    apply List.filter_congr
    intro r _
    unfold rowMatches buildChipConds
    rw [h1, chipBlock_nil]

/-- C4 witness: the parts applied at concrete inputs — the
`"roadworks && bridge"` chip evaluated on the sample row; the two-chip
OR on chips `"acme"` and `"zzz"`; the no-condition and
result-set-equality parts at the all-blank chip list `["", "  "]`. -/
theorem chip_filter_compilation_witness :
    blockHolds ["roadworks && bridge"] (fun r => r.businessCategory) sampleRow
      = (specSubstringMatch sampleRow.businessCategory "roadworks" &&
          specSubstringMatch sampleRow.businessCategory "bridge") ∧
    blockHolds ["acme", "zzz"] (fun r => r.awardeeName) sampleRow
      = (chipSat (fun r => r.awardeeName) "acme" sampleRow ||
          chipSat (fun r => r.awardeeName) "zzz" sampleRow) ∧
    chipBlock ["", "  "] (fun r => r.businessCategory) = none ∧
    [sampleRow].filter (rowMatches { noFilters with businessCategories := ["", "  "] })
      = [sampleRow].filter (rowMatches { noFilters with businessCategories := [] }) :=
  ⟨chip_filter_compilation.1 sampleRow,
   chip_filter_compilation.2.1 (fun r => r.awardeeName) "acme" "zzz" sampleRow
     (by decide) (by decide),
   chip_filter_compilation.2.2.1 ["", "  "] (fun r => r.businessCategory)
     (by decide),
   chip_filter_compilation.2.2.2 [sampleRow] noFilters ["", "  "] (by decide)⟩

theorem timeBlock_of_cons (trs : List TimeRange) (c : Row → Bool) (cs : List (Row → Bool))
    (h : trs.filterMap timeRangeCond = c :: cs) :
    timeBlock trs = some fun r => (c :: cs).any fun c => c r := by
  unfold timeBlock
  rw [h]

/-- C5 (confirmed): (1) for every quarter `Q ∈ 1..4` the quarterly
time-range condition `{year: Y, quarter: Q}` holds on a row exactly
when the award date is present with `year = Y` and
`month ∈ [3Q-2, 3Q]` (Q1=1-3, Q2=4-6, Q3=7-9, Q4=10-12); (2) in
particular `{year: 2021, quarter: 2}` matches exactly the rows with
year 2021 and month in {4,5,6}; (3) when the quarterly condition is
OR-combined with other time-range entries, a row satisfies the time
block exactly when some valid entry's condition holds on it; (4) the
`EXTRACT(QUARTER ...) = Q` form used by `chip_aggregates_paginated` is
equivalent to the month-range form on calendar months. -/
theorem quarterly_time_range_semantics :
    (∀ (y q : Int), 1 ≤ q → q ≤ 4 → ∀ (r : Row) (d : AwardDate), r.awardDate = some d →
        timeCondSat (.quarterly y q) r
          = (d.year == y && (decide (3 * q - 2 ≤ d.month) && decide (d.month ≤ 3 * q)))) ∧
    (∀ (y q : Int), 1 ≤ q → q ≤ 4 → ∀ r : Row, r.awardDate = none →
        timeCondSat (.quarterly y q) r = false) ∧
    (∀ (r : Row) (d : AwardDate), r.awardDate = some d →
        (timeCondSat (.quarterly 2021 2) r = true ↔
          (d.year = 2021 ∧ 4 ≤ d.month ∧ d.month ≤ 6))) ∧
    (∀ (trs : List TimeRange) (r : Row),
        (∃ tr ∈ trs, (timeRangeCond tr).isSome) →
        (timeHolds trs r = true ↔ ∃ tr ∈ trs, timeCondSat tr r = true)) ∧
    (∀ (m q : Int), 1 ≤ m → m ≤ 12 → 1 ≤ q → q ≤ 4 →
        (quarterOfMonth m = q ↔ (3 * q - 2 ≤ m ∧ m ≤ 3 * q))) := by
  refine ⟨?_, ?_, ?_, ?_, ?_⟩
  · intro y q h1 h4 r d hd
    have hq : q = 1 ∨ q = 2 ∨ q = 3 ∨ q = 4 := by omega
    rcases hq with hq | hq | hq | hq <;> subst hq
    · show (match r.awardDate with
        | some dd => dd.year == y && (decide (1 ≤ dd.month) && decide (dd.month ≤ 3))
        | none => false)
          = (d.year == y && (decide (1 ≤ d.month) && decide (d.month ≤ 3)))
      rw [hd]
    · show (match r.awardDate with
        | some dd => dd.year == y && (decide (4 ≤ dd.month) && decide (dd.month ≤ 6))
        | none => false)
          = (d.year == y && (decide (4 ≤ d.month) && decide (d.month ≤ 6)))
      rw [hd]
    · show (match r.awardDate with
        | some dd => dd.year == y && (decide (7 ≤ dd.month) && decide (dd.month ≤ 9))
        | none => false)
          = (d.year == y && (decide (7 ≤ d.month) && decide (d.month ≤ 9)))
      rw [hd]
    · show (match r.awardDate with
        | some dd => dd.year == y && (decide (10 ≤ dd.month) && decide (dd.month ≤ 12))
        | none => false)
          = (d.year == y && (decide (10 ≤ d.month) && decide (d.month ≤ 12)))
      rw [hd]
  · intro y q h1 h4 r hd
    have hq : q = 1 ∨ q = 2 ∨ q = 3 ∨ q = 4 := by omega
    rcases hq with hq | hq | hq | hq <;> subst hq
    · show (match r.awardDate with
        | some dd => dd.year == y && (decide (1 ≤ dd.month) && decide (dd.month ≤ 3))
        | none => false) = false
      rw [hd]
    · show (match r.awardDate with
        | some dd => dd.year == y && (decide (4 ≤ dd.month) && decide (dd.month ≤ 6))
        | none => false) = false
      rw [hd]
    · show (match r.awardDate with
        | some dd => dd.year == y && (decide (7 ≤ dd.month) && decide (dd.month ≤ 9))
        | none => false) = false
      rw [hd]
    · show (match r.awardDate with
        | some dd => dd.year == y && (decide (10 ≤ dd.month) && decide (dd.month ≤ 12))
        | none => false) = false
      rw [hd]
  · intro r d hd
    have h2 : timeCondSat (.quarterly 2021 2) r
        = (d.year == 2021 && (decide (4 ≤ d.month) && decide (d.month ≤ 6))) := by
      show (match r.awardDate with
        | some dd => dd.year == 2021 && (decide (4 ≤ dd.month) && decide (dd.month ≤ 6))
        | none => false)
          = (d.year == 2021 && (decide (4 ≤ d.month) && decide (d.month ≤ 6)))
      rw [hd]
    rw [h2]
    simp [and_assoc]
  · intro trs r hex
    have hne : trs.filterMap timeRangeCond ≠ [] := by
      rcases hex with ⟨tr, htr, hsome⟩
      rcases Option.isSome_iff_exists.mp hsome with ⟨c, hc⟩
      intro hnil
      have : c ∈ trs.filterMap timeRangeCond := List.mem_filterMap.mpr ⟨tr, htr, hc⟩
      rw [hnil] at this
      exact List.not_mem_nil c this
    cases hfm : trs.filterMap timeRangeCond with
    | nil => exact absurd hfm hne
    | cons c cs =>
      unfold timeHolds
      rw [timeBlock_of_cons trs c cs hfm]
      show ((c :: cs).any fun c => c r) = true ↔ _
      rw [List.any_eq_true]
      constructor
      · rintro ⟨x, hxmem, hxr⟩
        rw [← hfm] at hxmem
        rcases List.mem_filterMap.mp hxmem with ⟨tr, htr, hcond⟩
        refine ⟨tr, htr, ?_⟩
        unfold timeCondSat
        rw [hcond]
        exact hxr
      · rintro ⟨tr, htr, hsat⟩
        unfold timeCondSat at hsat
        cases hc : timeRangeCond tr with
        | none => rw [hc] at hsat; exact absurd hsat (by simp)
        | some x =>
          rw [hc] at hsat
          refine ⟨x, ?_, hsat⟩
          rw [← hfm]
          exact List.mem_filterMap.mpr ⟨tr, htr, hc⟩
  · intro m q hm1 hm12 hq1 hq4
    unfold quarterOfMonth
    omega

/-- C5 witness: the parts applied at the sample row (award date
2021-05-10) and at the time-range list pairing the quarterly entry with
a yearly entry; the quarter arithmetic at month 5, quarter 2. -/
theorem quarterly_time_range_semantics_witness :
    (timeCondSat (.quarterly 2021 2) sampleRow
      = (((2021 : Int) == 2021) &&
          (decide ((3 * 2 - 2 : Int) ≤ 5) && decide ((5 : Int) ≤ 3 * 2)))) ∧
    (timeCondSat (.quarterly 2021 2) sampleRow = true ↔
      ((2021 : Int) = 2021 ∧ (4 : Int) ≤ 5 ∧ (5 : Int) ≤ 6)) ∧
    (timeHolds [.quarterly 2021 2, .yearly 2019] sampleRow = true ↔
      ∃ tr ∈ [TimeRange.quarterly 2021 2, .yearly 2019], timeCondSat tr sampleRow = true) ∧
    (quarterOfMonth 5 = 2 ↔ ((3 * 2 - 2 : Int) ≤ 5 ∧ (5 : Int) ≤ 3 * 2)) :=
  ⟨quarterly_time_range_semantics.1 2021 2 (by decide) (by decide) sampleRow
     { year := 2021, month := 5, day := 10 } rfl,
   quarterly_time_range_semantics.2.2.1 sampleRow { year := 2021, month := 5, day := 10 } rfl,
   quarterly_time_range_semantics.2.2.2.1 [.quarterly 2021 2, .yearly 2019] sampleRow
     ⟨.quarterly 2021 2, by simp, by decide⟩,
   quarterly_time_range_semantics.2.2.2.2 5 2 (by decide) (by decide) (by decide) (by decide)⟩

/-- C6 counterexample: the request value `descending` is neither `asc`
nor `desc`, yet the search service executes it as `ASC` — not the
claimed default `DESC` — and the chip serializers' choice field rejects
it rather than accepting it without error. -/
theorem c6_counterexample :
    sortDirectionSql "descending" = "ASC" ∧
    sortDirectionSql "descending" ≠ "DESC" ∧
    sortDirectionChoiceValid "descending" = false := by
  refine ⟨by decide, by decide, by decide⟩

/-- C6 (corrected): for a sortDirection value that does not lower-case
to `desc`, the search service executes with direction ascending (`ASC`)
and reports no error (only the exact case-insensitive string `desc`
yields `DESC`); and the chip endpoints' serializer rejects every value
other than exactly `asc` or `desc` instead of running the search. -/
theorem sort_direction_leniency (s : String)
    (hd : lowerStr s ≠ "desc") (h1 : s ≠ "asc") (h2 : s ≠ "desc") :
    sortDirectionSql s = "ASC" ∧ sortDirectionChoiceValid s = false := by
  constructor
  · unfold sortDirectionSql
    rw [if_neg hd]
  · unfold sortDirectionChoiceValid
    simp [h1, h2]

/-- C6 witness: the corrected behaviour at the concrete value
`descending`. -/
theorem sort_direction_leniency_witness :
    sortDirectionSql "descending" = "ASC" ∧ sortDirectionChoiceValid "descending" = false :=
  sort_direction_leniency "descending" (by decide) (by decide) (by decide)

/-- C1 (code_bug): the chip-endpoint serializer rejects a sortBy value
outside the allow-list (`validate_sortBy` raises), but the legacy
advanced-search endpoint performs no such validation: the very same
rejected value is interpolated verbatim into the `ORDER BY` clause of
the query text `search_contracts` builds, so it does reach query
construction, contradicting the claim for that endpoint. -/
theorem sortBy_injection_reaches_legacy_query :
    validateSortBy "award_date; DROP TABLE contracts; --" = .error "Invalid sortBy" ∧
    "award_date; DROP TABLE contracts; --" ∉ ALLOWED_SORT_FIELDS ∧
    strContainsStr
      (advancedSearchQuery "BASE_QUERY" "award_date; DROP TABLE contracts; --" "desc" 1 20)
      "award_date; DROP TABLE contracts; --" = true := by
  refine ⟨by rfl, by decide, by decide⟩

theorem foldl_min_le_init (vs : List ℚ) : ∀ a : ℚ, vs.foldl min a ≤ a := by
  induction vs with
  | nil => intro a; simp
  | cons b t ih => intro a; exact le_trans (ih (min a b)) (min_le_left a b)

theorem foldl_min_le_mem (vs : List ℚ) : ∀ (a x : ℚ), x ∈ vs → vs.foldl min a ≤ x := by
  induction vs with
  | nil =>
    intro a x hx
    cases hx
  | cons b t ih =>
    intro a x hx
    rcases List.mem_cons.mp hx with rfl | hx
    · exact le_trans (foldl_min_le_init t (min a x)) (min_le_right a x)
    · exact ih (min a b) x hx

theorem listMinQ_le (l : List ℚ) (x : ℚ) (hx : x ∈ l) : listMinQ l ≤ x := by
  cases l with
  | nil => cases hx
  | cons v vs =>
    rcases List.mem_cons.mp hx with rfl | hx
    · exact foldl_min_le_init vs x
    · exact foldl_min_le_mem vs v x hx

theorem le_foldl_max_init (vs : List ℚ) : ∀ a : ℚ, a ≤ vs.foldl max a := by
  induction vs with
  | nil => intro a; simp
  | cons b t ih => intro a; exact le_trans (le_max_left a b) (ih (max a b))

theorem le_foldl_max_mem (vs : List ℚ) : ∀ (a x : ℚ), x ∈ vs → x ≤ vs.foldl max a := by
  induction vs with
  | nil =>
    intro a x hx
    cases hx
  | cons b t ih =>
    intro a x hx
    rcases List.mem_cons.mp hx with rfl | hx
    · exact le_trans (le_max_right a x) (le_foldl_max_init t (max a x))
    · exact ih (max a b) x hx

theorem le_listMaxQ (l : List ℚ) (x : ℚ) (hx : x ∈ l) : x ≤ listMaxQ l := by
  cases l with
  | nil => cases hx
  | cons v vs =>
    rcases List.mem_cons.mp hx with rfl | hx
    · exact le_foldl_max_init vs x
    · exact le_foldl_max_mem vs v x hx

theorem binOf_bounds (mn w : ℚ) (B : Int) (hB : 1 ≤ B) (v : ℚ)
    (hv : mn ≤ v) (hw : 0 ≤ w) :
    binOf mn w B v = specBinClamp mn w B v ∧
      1 ≤ binOf mn w B v ∧ binOf mn w B v ≤ B := by
  have h0 : 0 ≤ (v - mn) / w := by
    rcases eq_or_lt_of_le hw with h | h
    · rw [← h, div_zero]
    · exact div_nonneg (by linarith) (le_of_lt h)
  have hfl : 0 ≤ ⌊(v - mn) / w⌋ := Int.floor_nonneg.mpr h0
  have hone : 1 ≤ min (⌊(v - mn) / w⌋ + 1) B := le_min (by omega) hB
  refine ⟨?_, hone, min_le_right _ _⟩
  unfold binOf specBinClamp
  rw [max_eq_right hone]

theorem list_sum_map_add {α : Type} (l : List α) (f g : α → Nat) :
    (l.map fun x => f x + g x).sum = (l.map f).sum + (l.map g).sum := by
  induction l with
  | nil => rfl
  | cons a t ih =>
    simp only [List.map_cons, List.sum_cons, ih]
    omega

theorem sum_indicator_range (b : Int) : ∀ B : Nat,
    ((List.range B).map fun (i : Nat) => if b = (i : Int) + 1 then 1 else 0).sum
      = if 1 ≤ b ∧ b ≤ (B : Int) then 1 else 0 := by
  intro B
  induction B with
  | zero =>
    simp only [List.range_zero, List.map_nil, List.sum_nil]
    rw [eq_comm, if_neg]
    rintro ⟨h1, h2⟩
    omega
  | succ k ih =>
    rw [List.range_succ, List.map_append, List.sum_append, ih]
    simp only [List.map_cons, List.map_nil, List.sum_cons, List.sum_nil, Nat.add_zero]
    push_cast
    split_ifs <;> omega

theorem filterMap_count_sum (l : List Nat) (cnt : Nat → Nat) (mk : Nat → HistBin)
    (hmk : ∀ i, (mk i).count = cnt i) :
    ((l.filterMap fun i => if cnt i = 0 then none else some (mk i)).map
      fun b => b.count).sum = (l.map cnt).sum := by
  induction l with
  | nil => rfl
  | cons a t ih =>
    rw [List.filterMap_cons, List.map_cons, List.sum_cons]
    by_cases h : cnt a = 0
    · rw [if_pos h, ih, h, Nat.zero_add]
    · rw [if_neg h, List.map_cons, List.sum_cons, hmk, ih]

theorem histCount_range_sum (vals : List ℚ) (mn w : ℚ) (B : Nat)
    (h : ∀ v ∈ vals, 1 ≤ binOf mn w (B : Int) v ∧ binOf mn w (B : Int) v ≤ (B : Int)) :
    ((List.range B).map fun (i : Nat) => histCount vals mn w (B : Int) ((i : Int) + 1)).sum
      = vals.length := by
  induction vals with
  | nil =>
    unfold histCount
    simp
  | cons v t ih =>
    have hv := h v (by simp)
    have hc : (fun (i : Nat) => histCount (v :: t) mn w (B : Int) ((i : Int) + 1))
        = fun (i : Nat) =>
          histCount t mn w (B : Int) ((i : Int) + 1) +
            (if binOf mn w (B : Int) v = (i : Int) + 1 then 1 else 0) := by
      funext i
      unfold histCount
      rw [List.countP_cons]
      congr 1
      simp
    rw [hc, list_sum_map_add, ih fun x hx => h x (by simp [hx]), sum_indicator_range,
      if_pos ⟨hv.1, hv.2⟩, List.length_cons]

theorem filterMap_amount_length (l : List Row)
    (h : ∀ r ∈ l, (r.contractAmount).isSome) :
    (l.filterMap fun r => r.contractAmount).length = l.length := by
  induction l with
  | nil => rfl
  | cons a t ih =>
    rw [List.filterMap_cons]
    rcases Option.isSome_iff_exists.mp (h a (by simp)) with ⟨x, hx⟩
    rw [hx]
    simp only [List.length_cons]
    rw [ih fun r hr => h r (by simp [hr])]

theorem positiveAmounts_length (rows : List Row) (f : ChipFilters) :
    (positiveAmounts rows f).length
      = (rows.filter fun r => rowMatches f r && amountPositive r).length := by
  unfold positiveAmounts
  apply filterMap_amount_length
  intro r hr
  have hpos : amountPositive r = true := by
    have h2 := (List.mem_filter.mp hr).2
    simp only [Bool.and_eq_true] at h2
    exact h2.2
  unfold amountPositive at hpos
  cases hca : r.contractAmount with
  | none =>
    rw [hca] at hpos
    cases hpos
  | some a => simp [hca]

/-- C7 (confirmed): with at least one bin requested, (1) the sum of all
histogram bins' counts equals the number of filtered rows with positive
contract amount; (2) every positive amount's bin number equals
`clamp(floor((value - min) / binWidth) + 1, 1, numBins)` and lies in
`[1, numBins]` (the code's `LEAST(..., numBins)` upper clamp together
with the value being at least the minimum); (3) when no positive-amount
row matches, the engine returns the empty histogram with zero min, max
and bin width instead of dividing by zero. -/
theorem value_distribution_histogram (rows : List Row) (f : ChipFilters) (numBins : Nat)
    (hB : 1 ≤ numBins) :
    (((getValueDistribution rows f numBins).bins.map fun b => b.count).sum
        = (rows.filter fun r => rowMatches f r && amountPositive r).length) ∧
    (∀ v ∈ positiveAmounts rows f,
        binOf (listMinQ (positiveAmounts rows f))
            (histWidth (positiveAmounts rows f) numBins) (numBins : Int) v
          = specBinClamp (listMinQ (positiveAmounts rows f))
              (histWidth (positiveAmounts rows f) numBins) (numBins : Int) v ∧
        1 ≤ binOf (listMinQ (positiveAmounts rows f))
              (histWidth (positiveAmounts rows f) numBins) (numBins : Int) v ∧
        binOf (listMinQ (positiveAmounts rows f))
            (histWidth (positiveAmounts rows f) numBins) (numBins : Int) v
          ≤ (numBins : Int)) ∧
    (positiveAmounts rows f = [] →
        getValueDistribution rows f numBins
          = { success := true, minValue := 0, maxValue := 0, binWidth := 0,
              totalContracts := 0, bins := [] }) := by
  have hBi : (1 : Int) ≤ (numBins : Int) := by exact_mod_cast hB
  have hbounds : ∀ v ∈ positiveAmounts rows f,
      binOf (listMinQ (positiveAmounts rows f))
          (histWidth (positiveAmounts rows f) numBins) (numBins : Int) v
        = specBinClamp (listMinQ (positiveAmounts rows f))
            (histWidth (positiveAmounts rows f) numBins) (numBins : Int) v ∧
      1 ≤ binOf (listMinQ (positiveAmounts rows f))
            (histWidth (positiveAmounts rows f) numBins) (numBins : Int) v ∧
      binOf (listMinQ (positiveAmounts rows f))
          (histWidth (positiveAmounts rows f) numBins) (numBins : Int) v
        ≤ (numBins : Int) := by
    intro v hv
    have hmn : listMinQ (positiveAmounts rows f) ≤ v := listMinQ_le _ v hv
    have hmx : v ≤ listMaxQ (positiveAmounts rows f) := le_listMaxQ _ v hv
    have hw : 0 ≤ histWidth (positiveAmounts rows f) numBins := by
      unfold histWidth
      apply div_nonneg (by linarith) (by positivity)
    exact binOf_bounds _ _ _ hBi v hmn hw
  refine ⟨?_, hbounds, ?_⟩
  · by_cases hne : positiveAmounts rows f = []
    · unfold getValueDistribution
      rw [if_pos hne, ← positiveAmounts_length, hne]
      rfl
    · unfold getValueDistribution
      rw [if_neg hne]
      show ((histBins (positiveAmounts rows f) numBins).map fun b => b.count).sum = _
      unfold histBins
      rw [filterMap_count_sum (List.range numBins)
        (fun i => histCount (positiveAmounts rows f) (listMinQ (positiveAmounts rows f))
          (histWidth (positiveAmounts rows f) numBins) (numBins : Int) ((i : Int) + 1))
        (fun i => histBinFor (positiveAmounts rows f) (listMinQ (positiveAmounts rows f))
          (histWidth (positiveAmounts rows f) numBins) (numBins : Int) ((i : Int) + 1))
        (fun i => rfl)]
      rw [histCount_range_sum _ _ _ _ fun v hv => (hbounds v hv).2]
      exact positiveAmounts_length rows f
  · intro h
    unfold getValueDistribution
    rw [if_pos h]

/-- C7 witness: the one-row table with positive amount 100 at 4 bins —
the bins' counts sum to the 1 positive filtered row, and the amount's
bin is the clamped bin 1 within `[1, 4]`; plus the empty case on the
empty table. -/
theorem value_distribution_histogram_witness :
    (((getValueDistribution [sampleRow] noFilters 4).bins.map fun b => b.count).sum
        = ([sampleRow].filter fun r => rowMatches noFilters r && amountPositive r).length) ∧
    (binOf (listMinQ (positiveAmounts [sampleRow] noFilters))
        (histWidth (positiveAmounts [sampleRow] noFilters) 4) (4 : Int) 100
      = specBinClamp (listMinQ (positiveAmounts [sampleRow] noFilters))
          (histWidth (positiveAmounts [sampleRow] noFilters) 4) (4 : Int) 100 ∧
      1 ≤ binOf (listMinQ (positiveAmounts [sampleRow] noFilters))
            (histWidth (positiveAmounts [sampleRow] noFilters) 4) (4 : Int) 100 ∧
      binOf (listMinQ (positiveAmounts [sampleRow] noFilters))
          (histWidth (positiveAmounts [sampleRow] noFilters) 4) (4 : Int) 100 ≤ (4 : Int)) ∧
    (getValueDistribution [] noFilters 4
      = { success := true, minValue := 0, maxValue := 0, binWidth := 0,
          totalContracts := 0, bins := [] }) :=
  ⟨(value_distribution_histogram [sampleRow] noFilters 4 (by decide)).1,
   (value_distribution_histogram [sampleRow] noFilters 4 (by decide)).2.1 100 (by decide),
   (value_distribution_histogram [] noFilters 4 (by decide)).2.2 (by decide)⟩

/-- C8 (confirmed): delivering `GeneratorExit` (consumer disconnect) at
any yield point of the record-level export generator or of the
aggregated export generator terminates the generator without raising:
the yield points inside the `try` are covered by
`except GeneratorExit: return` (the `except Exception` clause of the
record-level generator does not catch `GeneratorExit`), and at the
header yield point before the `try` the exception propagates, which
Python's generator close treats as clean termination as well. -/
theorem export_cancellation_clean :
    (chipExportYieldPoints.all fun hs => !(closeRaisesError (deliverGeneratorExit hs))) = true ∧
    (chipExportAggregatedYieldPoints.all fun hs =>
      !(closeRaisesError (deliverGeneratorExit hs))) = true := by
  decide

/-- C9 (code_bug): the synchronous chip-search view caches only
successful results, but the background search task caches the
structured service result unconditionally — including a
`success: false` failure result — under the client-visible cache key,
and since that dict has no `status` key, `get_cached_result` serves it
as `status: success` (and `trigger_search` serves it as already
cached), contradicting the claim that an error result is never stored
in or served from the cache as a success. -/
theorem error_result_cached_as_success :
    chipSearchViewCacheWrite failedSearchResult = none ∧
    failedSearchResult.success = false ∧
    processChipSearchTaskCacheWrite (.ok failedSearchResult)
      = .serviceResult failedSearchResult ∧
    getCachedResult (some (.serviceResult failedSearchResult)) = .successStatus ∧
    triggerSearchServesFromCache (some (.serviceResult failedSearchResult)) = true ∧
    processChipSearchTaskCacheWrite (.error "boom") = .statusError "boom" ∧
    getCachedResult (some (.statusError "boom")) = .errorStatus := by
  exact ⟨rfl, rfl, rfl, rfl, rfl, rfl, rfl⟩

theorem celeryRunFrom_always_fails {R : Type} (body : Nat → Except String R)
    (maxR : Nat) (hb : ∀ n, ∃ e, body n = .error e) :
    ∀ (k a : Nat), maxR - a = k → a ≤ maxR →
      celeryRunFrom body maxR a = (.FAILURE, maxR) := by
  intro k
  induction k with
  | zero =>
    intro a hk ha
    have haeq : a = maxR := by omega
    subst haeq
    rcases hb a with ⟨e, he⟩
    unfold celeryRunFrom
    rw [he, if_pos (le_refl a)]
  | succ k ih =>
    intro a hk ha
    rcases hb a with ⟨e, he⟩
    unfold celeryRunFrom
    rw [he, if_neg (by omega : ¬ maxR ≤ a)]
    exact ih (a + 1) (by omega) (by omega)

theorem callServiceAttemptCount_le {R : Type} (f : Nat → Except String R)
    (retries : Nat) :
    ∀ (k a : Nat), retries - a = k →
      callServiceAttemptCount f retries a ≤ retries - a + 1 := by
  intro k
  induction k with
  | zero =>
    intro a hk
    unfold callServiceAttemptCount
    cases hf : f a with
    | ok r => simp
    | error e =>
      show (if retries ≤ a then 1 else 1 + callServiceAttemptCount f retries (a + 1))
        ≤ retries - a + 1
      rw [if_pos (by omega : retries ≤ a)]
      omega
  | succ k ih =>
    intro a hk
    unfold callServiceAttemptCount
    cases hf : f a with
    | ok r => simp
    | error e =>
      show (if retries ≤ a then 1 else 1 + callServiceAttemptCount f retries (a + 1))
        ≤ retries - a + 1
      rw [if_neg (by omega : ¬ retries ≤ a)]
      have := ih (a + 1) (by omega)
      omega

theorem callServiceWithRetries_always_fails {R : Type} (f : Nat → Except String R)
    (retries : Nat) (hb : ∀ n, ∃ e, f n = .error e) :
    ∀ (k a : Nat), retries - a = k → a ≤ retries →
      callServiceWithRetries f retries a = f retries := by
  intro k
  induction k with
  | zero =>
    intro a hk ha
    have haeq : a = retries := by omega
    subst haeq
    rcases hb a with ⟨e, he⟩
    unfold callServiceWithRetries
    rw [he]
    show (if a ≤ a then Except.error e else callServiceWithRetries f a (a + 1))
      = Except.error e
    rw [if_pos (le_refl a)]
  | succ k ih =>
    intro a hk ha
    rcases hb a with ⟨e, he⟩
    unfold callServiceWithRetries
    rw [he]
    show (if retries ≤ a then Except.error e else callServiceWithRetries f retries (a + 1))
      = f retries
    rw [if_neg (by omega : ¬ retries ≤ a)]
    exact ih (a + 1) (by omega) (by omega)

/-- C10 (confirmed): (1) a background task whose body fails on every
attempt reaches the terminal FAILURE state with final retry count equal
to its `max_retries` budget — exactly `max_retries` re-executions after
the first, never an unbounded retry loop (the model is a total
function, so every run terminates); (2) the synchronous export
fetch helper performs at most `retries + 1` service calls; (3) when the
service fails on every attempt the helper surfaces the error of the
final attempt; and (4) `process_chip_search_task` declares the fixed
budget `max_retries = 2`. -/
theorem bounded_retry_budget :
    (∀ {R : Type} (body : Nat → Except String R) (maxRetries : Nat),
        (∀ n, ∃ e, body n = .error e) →
        celeryRunFrom body maxRetries 0 = (.FAILURE, maxRetries)) ∧
    (∀ {R : Type} (f : Nat → Except String R) (retries : Nat),
        callServiceAttemptCount f retries 0 ≤ retries + 1) ∧
    (∀ {R : Type} (f : Nat → Except String R) (retries : Nat),
        (∀ n, ∃ e, f n = .error e) →
        callServiceWithRetries f retries 0 = f retries) ∧
    processChipSearchTaskMaxRetries = 2 := by
  refine ⟨?_, ?_, ?_, rfl⟩
  · intro R body maxRetries hb
    exact celeryRunFrom_always_fails body maxRetries hb (maxRetries - 0) 0 rfl (by omega)
  · intro R f retries
    have := callServiceAttemptCount_le f retries (retries - 0) 0 rfl
    omega
  · intro R f retries hb
    exact callServiceWithRetries_always_fails f retries hb (retries - 0) 0 rfl (by omega)

/-- C10 witness: a body failing on every attempt under the task's
budget of 2 terminates in FAILURE with retry count 2; the export fetch
helper with `retries = 2` makes at most 3 calls and surfaces the
error. -/
theorem bounded_retry_budget_witness :
    celeryRunFrom (fun _ : Nat => (Except.error "boom" : Except String Unit))
        processChipSearchTaskMaxRetries 0 = (.FAILURE, 2) ∧
    callServiceAttemptCount (fun _ : Nat => (Except.error "boom" : Except String Unit)) 2 0
      ≤ 3 ∧
    callServiceWithRetries (fun _ : Nat => (Except.error "boom" : Except String Unit)) 2 0
      = Except.error "boom" :=
  ⟨bounded_retry_budget.1 _ processChipSearchTaskMaxRetries (fun _ => ⟨"boom", rfl⟩),
   bounded_retry_budget.2.1 _ 2,
   bounded_retry_budget.2.2.1 (fun _ : Nat => (Except.error "boom" : Except String Unit)) 2
     (fun _ => ⟨"boom", rfl⟩)⟩

end Philgeps
